import Mathlib

/-!
# Verification of the mdlm CLI sync engine

A shallow embedding of the local/remote reconciliation engine of the
`mdlm` command-line client (files `mdlm/cli.py`, `mdlm/manifest.py`,
`mdlm/api.py`), together with theorems settling the specification claims.

Modelling conventions:
* The content hasher (`hashlib.sha256(...).hexdigest()` over UTF-8 bytes)
  is an abstract deterministic function `h : String → String`, passed
  explicitly to every operation that hashes.
* The Remote Store (`ApiClient`) is a deterministic oracle whose operations
  return `Except ApiErr _`; an `Except.error` models a raised `ApiError`.
* The filesystem is a snapshot: a map from relative path to a
  `FileState` (absent / present with content / stat-able but unreadable),
  plus the list of `*.md` paths produced by `rglob` under `knowledge/`.
* `mf.save` calls are recorded in a `saves` list (each element is the
  manifest value passed to `save`, in call order); remote calls are
  recorded in a `trace` list.
* An uncaught Python exception (e.g. `read_text` raising on an unreadable
  file) is modelled as the whole command returning `Except.error`.
-/

/-- A manifest entry, per `mdlm/manifest.py` (entry shape comment) and the
fields actually read/written in `mdlm/cli.py`.  `version` and
`content_hash` are read with `dict.get` (may be absent), hence `Option`;
`id`, `category`, `title` are accessed with mandatory indexing. -/
structure Entry where
  id : String
  version : Option Int
  category : String
  title : String
  content_hash : Option String
deriving Repr, DecidableEq

/-- The manifest: mapping from relative path to entry (`mdlm/manifest.py`).
A Python dict is modelled as an association list with unique keys in
insertion order; `add_entry` preserves this discipline. -/
abbrev Manifest := List (String × Entry)

/-- `manifest.add_entry`: `manifest[rel_path] = entry` — replaces the value
at an existing key in place, otherwise appends at the end (Python dict
assignment semantics). -/
def add_entry (m : Manifest) (relPath : String) (e : Entry) : Manifest :=
  if m.any (fun kv => kv.1 == relPath) then
    m.map (fun kv => if kv.1 == relPath then (relPath, e) else kv)
  else
    m ++ [(relPath, e)]

/-- `manifest.remove_entry`: `manifest.pop(rel_path, None)`. -/
def remove_entry (m : Manifest) (relPath : String) : Manifest :=
  m.filter (fun kv => kv.1 != relPath)

/-- `manifest.get_entry`: `manifest.get(rel_path)`. -/
def get_entry (m : Manifest) (relPath : String) : Option Entry :=
  (m.find? (fun kv => kv.1 == relPath)).map (fun kv => kv.2)

/-- State of one path in the filesystem snapshot.  `unreadable` models a
file whose `stat` succeeds (so `Path.exists()` is true) but whose
`read_text` raises (e.g. permission denied on open). -/
inductive FileState
  | absent
  | unreadable
  | present (content : String)
deriving Repr, DecidableEq

/-- Filesystem snapshot: per-path state plus the relative paths of the
`*.md` files found by `Path("knowledge").rglob("*.md")`. -/
structure FS where
  read : String → FileState
  mdFiles : List String

/-- `_read_local` (cli.py 54–58): `None` if `p.exists()` is false, else
`p.read_text()`; a read failure on an existing file is an uncaught
exception, modelled as `Except.error`. -/
def readLocal (fs : FS) (relPath : String) : Except String (Option String) :=
  match fs.read relPath with
  | .absent => .ok none
  | .unreadable => .error "read_text failed"
  | .present c => .ok (some c)

/-- `VALID_CATEGORIES` from `mdlm/api.py`. -/
def VALID_CATEGORIES : List String :=
  ["architecture", "stack", "testing", "deployment", "security",
   "style", "dependencies", "error_handling", "business_logic", "general"]

/-- Strip leading and trailing `'.'` and `' '` characters
(Python `str.strip(". ")`). -/
def stripDotSpace (s : String) : String :=
  let l := s.toList.dropWhile (fun c => c == '.' || c == ' ')
  String.mk ((l.reverse.dropWhile (fun c => c == '.' || c == ' ')).reverse)

/-- Replace every occurrence of the character `c` with `r`
(`str.replace` for a one-character pattern). -/
def replaceChar (c r : Char) (s : String) : String :=
  String.mk (s.toList.map (fun a => if a = c then r else a))

/-- `_safe_filename` (cli.py 41–46): replace `/`, `\` and NUL with `_`,
strip leading/trailing dots and spaces, fall back to `"_"` if empty. -/
def safe_filename (name : String) : String :=
  let n := replaceChar '\x00' '_' (replaceChar '\\' '_' (replaceChar '/' '_' name))
  let n := stripDotSpace n
  if n = "" then "_" else n

/-- `_local_path` (cli.py 49–51): `knowledge/<safe category>/<safe title>`. -/
def local_path (category title : String) : String :=
  "knowledge/" ++ safe_filename category ++ "/" ++ safe_filename title

/-- A remote document, with the fields the CLI reads
(`id`, `version`, `title`, `category`, `content`). -/
structure Doc where
  id : String
  version : Int
  title : String
  category : String
  content : String
deriving Repr, DecidableEq

/-- A raised `ApiError` (status code and message), per `mdlm/api.py`. -/
structure ApiErr where
  status : Int
  message : String
deriving Repr, DecidableEq

/-- The Remote Store oracle: the four mutating/reading endpoints of
`ApiClient` used by the sync engine.  Deterministic within one command
invocation; `Except.error` models a raised `ApiError`. -/
structure Remote where
  get_doc : String → Except ApiErr Doc
  update_doc : String → String → String → String → Option String → Except ApiErr Doc
  delete_doc : String → Except ApiErr Unit
  create_doc : String → String → String → Except ApiErr Doc

/-- One remote call, as recorded in a command's trace. -/
inductive RemoteCall
  | get_doc (id : String)
  | update_doc (id title content category : String) (reason : Option String)
  | delete_doc (id : String)
  | create_doc (title content category : String)
deriving Repr, DecidableEq

/-- The category-filter skip test used by `cmd_push`
(`if category_filter and <cat> != category_filter: continue`). -/
def filterSkips (categoryFilter : Option String) (cat : String) : Bool :=
  match categoryFilter with
  | some cf => cat != cf
  | none => false

/-!
## `cmd_status` (cli.py 179–246): the Reconciler
-/

/-- The three change sets that `cmd_status` computes and prints. -/
structure StatusResult where
  newFiles : List String
  modified : List String
  deleted : List String
deriving Repr, DecidableEq

/-- The tracked-file loop of `cmd_status` (cli.py 204–224): classify each
manifest entry as deleted (file absent), modified (stored hash present and
different from current hash), or neither (unchanged, or no stored hash).
An unreadable file propagates the uncaught read exception. -/
def classifyTracked (h : String → String) (fs : FS) :
    List (String × Entry) → Except String (List String × List String)
  | [] => .ok ([], [])
  | (relPath, entry) :: rest =>
    match readLocal fs relPath with
    | .error e => .error e
    | .ok none =>
      match classifyTracked h fs rest with
      | .error e => .error e
      | .ok (mods, dels) => .ok (mods, relPath :: dels)
    | .ok (some content) =>
      match entry.content_hash with
      | some storedHash =>
        if h content ≠ storedHash then
          match classifyTracked h fs rest with
          | .error e => .error e
          | .ok (mods, dels) => .ok (relPath :: mods, dels)
        else classifyTracked h fs rest
      | none => classifyTracked h fs rest

/-- The pure reconciliation of `cmd_status` (cli.py 190–229): tracked files
classified by `classifyTracked`; new files are the local `*.md` files whose
path is not a manifest key. -/
def reconcile (h : String → String) (m : Manifest) (fs : FS) :
    Except String StatusResult :=
  match classifyTracked h fs m with
  | .error e => .error e
  | .ok (mods, dels) =>
    .ok { newFiles := fs.mdFiles.filter (fun p => (get_entry m p).isNone),
          modified := mods, deleted := dels }

/-- `cmd_status`: fatal if not initialized (no manifest file on disk),
else run the reconciler.  `disk = none` models an absent
`.mdlm/manifest.json`. -/
def cmd_status (h : String → String) (disk : Option Manifest) (fs : FS) :
    Except String StatusResult :=
  match disk with
  | none => .error "No manifest found. Run `mdlm clone` first."
  | some m => reconcile h m fs

/-!
## `cmd_push` (cli.py 249–398)
-/

/-- Mutable state threaded through the two phases of `cmd_push`:
the in-memory manifest, the manifests passed to `mf.save` (in order),
the remote calls made (in order), and the four outcome counters. -/
structure PushSt where
  manifest : Manifest
  saves : List Manifest
  trace : List RemoteCall
  created : Nat
  updated : Nat
  deletedCount : Nat
  errors : Nat
deriving Repr, DecidableEq

/-- Phase 1 of `cmd_push` (cli.py 277–342): iterate the tracked entries
(a snapshot of the manifest taken at loop start).  Per entry: skip on
category-filter mismatch; if the local file is absent follow the
deleted-locally branch (remote delete + in-memory entry removal when the
delete flag is set — note the source calls no `mf.save` there — else skip);
if unchanged (stored hash equals current hash) skip; else fetch the remote
document, report a conflict when versions differ, otherwise update and
save the manifest immediately.  An unreadable file propagates the
uncaught read exception, aborting the whole push. -/
def pushTracked (h : String → String) (remote : Remote)
    (categoryFilter : Option String) (deleteFlag : Bool)
    (message : Option String) (fs : FS) :
    List (String × Entry) → PushSt → Except String PushSt
  | [], st => .ok st
  | (relPath, entry) :: rest, st =>
    if filterSkips categoryFilter entry.category then
      pushTracked h remote categoryFilter deleteFlag message fs rest st
    else
      match readLocal fs relPath with
      | .error e => .error e
      | .ok none =>
        if deleteFlag then
          match remote.delete_doc entry.id with
          | .ok _ =>
            pushTracked h remote categoryFilter deleteFlag message fs rest
              { st with manifest := remove_entry st.manifest relPath,
                        trace := st.trace ++ [.delete_doc entry.id],
                        deletedCount := st.deletedCount + 1 }
          | .error _ =>
            pushTracked h remote categoryFilter deleteFlag message fs rest
              { st with trace := st.trace ++ [.delete_doc entry.id],
                        errors := st.errors + 1 }
        else
          pushTracked h remote categoryFilter deleteFlag message fs rest st
      | .ok (some content) =>
        let currentHash := h content
        if entry.content_hash = some currentHash then
          pushTracked h remote categoryFilter deleteFlag message fs rest st
        else
          match remote.get_doc entry.id with
          | .error _ =>
            pushTracked h remote categoryFilter deleteFlag message fs rest
              { st with trace := st.trace ++ [.get_doc entry.id],
                        errors := st.errors + 1 }
          | .ok remoteDoc =>
            if remoteDoc.version ≠ entry.version.getD 0 then
              pushTracked h remote categoryFilter deleteFlag message fs rest
                { st with trace := st.trace ++ [.get_doc entry.id],
                          errors := st.errors + 1 }
            else
              match remote.update_doc entry.id entry.title content entry.category message with
              | .ok doc =>
                let entry2 := { entry with version := some doc.version,
                                           content_hash := some currentHash }
                let m2 := add_entry st.manifest relPath entry2
                pushTracked h remote categoryFilter deleteFlag message fs rest
                  { st with manifest := m2,
                            saves := st.saves ++ [m2],
                            trace := st.trace ++ [.get_doc entry.id,
                              .update_doc entry.id entry.title content entry.category message],
                            updated := st.updated + 1 }
              | .error _ =>
                pushTracked h remote categoryFilter deleteFlag message fs rest
                  { st with trace := st.trace ++ [.get_doc entry.id,
                              .update_doc entry.id entry.title content entry.category message],
                            errors := st.errors + 1 }

/-- The last path component of `p` (`Path(p).name`). -/
def lastComponent (p : String) : String :=
  (p.splitOn "/").getLastD p

/-- The category `cmd_push` infers for an untracked file
(cli.py 351–355): the first path segment below the knowledge root when the
file is nested more than one level deep, else `"general"`; anything
outside `VALID_CATEGORIES` collapses to `"general"`. -/
def inferredCategory (p : String) : String :=
  let parts := (p.splitOn "/").drop 1
  let c := if parts.length > 1 then parts.headD "" else "general"
  if c ∈ VALID_CATEGORIES then c else "general"

/-- Phase 2 of `cmd_push` (cli.py 345–382): for each `*.md` file (in
sorted order) not already a key of the (live, possibly phase-1-mutated)
manifest and not filtered out by category, read it, call create, and on
success add a manifest entry and save immediately. -/
def pushUntracked (h : String → String) (remote : Remote)
    (categoryFilter : Option String) (fs : FS) :
    List String → PushSt → Except String PushSt
  | [], st => .ok st
  | p :: rest, st =>
    if (get_entry st.manifest p).isSome then
      pushUntracked h remote categoryFilter fs rest st
    else
      let inferred := inferredCategory p
      if filterSkips categoryFilter inferred then
        pushUntracked h remote categoryFilter fs rest st
      else
        match fs.read p with
        | .present content =>
          let title := lastComponent p
          match remote.create_doc title content inferred with
          | .ok doc =>
            let currentHash := h content
            let e : Entry := { id := doc.id, version := some doc.version,
                               category := doc.category, title := doc.title,
                               content_hash := some currentHash }
            let m2 := add_entry st.manifest p e
            pushUntracked h remote categoryFilter fs rest
              { st with manifest := m2,
                        saves := st.saves ++ [m2],
                        trace := st.trace ++ [.create_doc title content inferred],
                        created := st.created + 1 }
          | .error _ =>
            pushUntracked h remote categoryFilter fs rest
              { st with trace := st.trace ++ [.create_doc title content inferred],
                        errors := st.errors + 1 }
        | _ => .error "read_text failed"

/-- Insert a string into a sorted list, keeping it sorted (stable). -/
def insertSorted (x : String) : List String → List String
  | [] => [x]
  | y :: ys => if x ≤ y then x :: y :: ys else y :: insertSorted x ys

/-- A stable lexicographic sort, modelling Python's `sorted` as applied to
the distinct paths produced by `rglob` (cli.py 346). -/
def sortStrings (l : List String) : List String :=
  l.foldr insertSorted []

/-- The final summary line of `cmd_push` (cli.py 384–398). -/
def pushSummary (st : PushSt) : String :=
  let parts : List String :=
    (if st.created ≠ 0 then [toString st.created ++ " created"] else []) ++
    (if st.updated ≠ 0 then [toString st.updated ++ " updated"] else []) ++
    (if st.deletedCount ≠ 0 then [toString st.deletedCount ++ " deleted"] else []) ++
    (if st.errors ≠ 0 then [toString st.errors ++ " error(s)"] else [])
  if parts.isEmpty then "Nothing to push — no changes detected."
  else "Push complete: " ++ String.intercalate ", " parts ++ "."

/-- Everything observable about one `cmd_push` run. -/
structure PushResult where
  manifest : Manifest
  saves : List Manifest
  trace : List RemoteCall
  created : Nat
  updated : Nat
  deletedCount : Nat
  errors : Nat
  summary : String
deriving Repr, DecidableEq

/-- `cmd_push`: fatal if not initialized or if the category filter is not a
valid category; otherwise phase 1 over the tracked entries, then phase 2
over the sorted untracked `*.md` files, then the summary line. -/
def cmd_push (h : String → String) (remote : Remote) (disk : Option Manifest)
    (fs : FS) (message categoryFilter : Option String) (deleteFlag : Bool) :
    Except String PushResult :=
  match disk with
  | none => .error "No manifest found. Run `mdlm clone` first."
  | some m =>
    if (match categoryFilter with
        | some cf => cf ∉ VALID_CATEGORIES
        | none => false : Bool) then .error "Unknown category"
    else
      match pushTracked h remote categoryFilter deleteFlag message fs m
              { manifest := m, saves := [], trace := [],
                created := 0, updated := 0, deletedCount := 0, errors := 0 } with
      | .error e => .error e
      | .ok st1 =>
        match pushUntracked h remote categoryFilter fs
                (sortStrings fs.mdFiles) st1 with
        | .error e => .error e
        | .ok st2 =>
          .ok { manifest := st2.manifest, saves := st2.saves, trace := st2.trace,
                created := st2.created, updated := st2.updated,
                deletedCount := st2.deletedCount, errors := st2.errors,
                summary := pushSummary st2 }

/-!
## `cmd_pull` (cli.py 140–176)
-/

/-- State threaded through the pull loop: the in-memory manifest, the
local-file writes performed (path, content, in order), and counters. -/
structure PullSt where
  manifest : Manifest
  writes : List (String × String)
  updatedCount : Nat
  errors : Nat
deriving Repr, DecidableEq

/-- The entry update performed by `cmd_pull` on a successful fetch
(cli.py 167–172). -/
def pullEntryUpdate (h : String → String) (e : Entry) (doc : Doc) : Entry :=
  { e with version := some doc.version, title := doc.title,
           category := doc.category, content_hash := some (h doc.content) }

/-- The per-entry loop of `cmd_pull` (cli.py 159–173): fetch each tracked
document; a fetch failure is counted and skipped; a success overwrites the
local file and updates the entry in place. -/
def pullLoop (h : String → String) (remote : Remote) :
    List (String × Entry) → PullSt → PullSt
  | [], st => st
  | (relPath, entry) :: rest, st =>
    match remote.get_doc entry.id with
    | .error _ =>
      pullLoop h remote rest { st with errors := st.errors + 1 }
    | .ok doc =>
      pullLoop h remote rest
        { st with writes := st.writes ++ [(relPath, doc.content)],
                  manifest := add_entry st.manifest relPath (pullEntryUpdate h entry doc),
                  updatedCount := st.updatedCount + 1 }

/-- Everything observable about one `cmd_pull` run. -/
structure PullResult where
  manifest : Manifest
  writes : List (String × String)
  saves : List Manifest
  updatedCount : Nat
  errors : Nat
deriving Repr, DecidableEq

/-- `cmd_pull`: fatal if not initialized; early return (no save) on an
empty manifest; otherwise run the loop over all entries and save the
manifest exactly once at the end (cli.py 175). -/
def cmd_pull (h : String → String) (remote : Remote) (disk : Option Manifest) :
    Except String PullResult :=
  match disk with
  | none => .error "No manifest found. Run `mdlm clone` first."
  | some m =>
    if m.isEmpty then
      .ok { manifest := m, writes := [], saves := [], updatedCount := 0, errors := 0 }
    else
      let st := pullLoop h remote m { manifest := m, writes := [], updatedCount := 0, errors := 0 }
      .ok { manifest := st.manifest, writes := st.writes, saves := [st.manifest],
            updatedCount := st.updatedCount, errors := st.errors }

/-!
## `cmd_clone` (cli.py 83–137)
-/

/-- Everything observable about one `cmd_clone` run: the manifest written
to disk (`none` when no manifest file was created), the local-file writes
(path, content, in order), and the count reported. -/
structure CloneResult where
  disk : Option Manifest
  writes : List (String × String)
  written : Nat
deriving Repr, DecidableEq

/-- The manifest entry `cmd_clone` records for a document
(cli.py 122–132). -/
def cloneEntry (h : String → String) (d : Doc) : Entry :=
  { id := d.id, version := some d.version, category := d.category,
    title := d.title, content_hash := some (h d.content) }

/-- The per-document loop of `cmd_clone` (cli.py 118–133): write each
document's content to its derived local path and record a manifest entry. -/
def cloneLoop (h : String → String) :
    List Doc → Manifest → List (String × String) → Nat →
    Manifest × List (String × String) × Nat
  | [], m, ws, n => (m, ws, n)
  | d :: rest, m, ws, n =>
    let rel := local_path d.category d.title
    cloneLoop h rest (add_entry m rel (cloneEntry h d)) (ws ++ [(rel, d.content)]) (n + 1)

/-- `cmd_clone` over the document list returned by the Remote Store:
fatal if already initialized; an empty list returns without creating a
manifest file; otherwise process every document and save the manifest
once at the end. -/
def cmd_clone (h : String → String) (alreadyInitialized : Bool)
    (docs : List Doc) : Except String CloneResult :=
  if alreadyInitialized then
    .error "This directory already has a .mdlm/manifest.json."
  else if docs.isEmpty then
    .ok { disk := none, writes := [], written := 0 }
  else
    let (m, ws, n) := cloneLoop h docs [] [] 0
    .ok { disk := some m, writes := ws, written := n }

/-- The most recent content written to `p` by a sequence of writes. -/
def lastWrite (ws : List (String × String)) (p : String) : Option String :=
  (ws.reverse.find? (fun w => w.1 == p)).map (fun w => w.2)

/-- The filesystem snapshot left behind by a sequence of writes into a
fresh directory: each written path holds its last written content, and
`rglob("*.md")` lists exactly the written paths ending in `.md`. -/
def fsOfWrites (ws : List (String × String)) : FS where
  read p :=
    match lastWrite ws p with
    | some c => .present c
    | none => .absent
  mdFiles := ((ws.map Prod.fst).dedup).filter (fun p => p.endsWith ".md")

/-!
## Helper lemmas about the manifest and filesystem model
-/

theorem find?_map_replaceKey (m : Manifest) (q p : String) (e : Entry)
    (hpq : p ≠ q) :
    (m.map (fun kv => if kv.1 == q then (q, e) else kv)).find?
        (fun kv => kv.1 == p)
      = m.find? (fun kv => kv.1 == p) := by
  rw [List.find?_map]
  have hfun : ((fun kv : String × Entry => kv.1 == p) ∘
      (fun kv => if kv.1 == q then (q, e) else kv))
      = (fun kv : String × Entry => kv.1 == p) := by
    funext kv
    by_cases hq : kv.1 = q
    · simp [Function.comp, hq, Ne.symm hpq]
    · simp [Function.comp, hq]
  rw [hfun]
  cases hfind : m.find? (fun kv => kv.1 == p) with
  | none => rfl
  | some kv =>
    have hkvp : kv.1 = p := by simpa using List.find?_some hfind
    have hkvq : (kv.1 == q) = false := by simp [hkvp, hpq]
    simp [hkvq]
    intro hk
    rw [hkvp] at hk
    exact absurd hk hpq

theorem get_entry_add_entry (m : Manifest) (q p : String) (e : Entry) :
    get_entry (add_entry m q e) p = if p = q then some e else get_entry m p := by
  unfold add_entry get_entry
  by_cases hany : m.any (fun kv => kv.1 == q)
  · simp only [hany, if_true]
    by_cases hpq : p = q
    · subst hpq
      rw [List.find?_map]
      have hfun : ((fun kv : String × Entry => kv.1 == p) ∘
          (fun kv => if kv.1 == p then (p, e) else kv))
          = (fun kv : String × Entry => kv.1 == p) := by
        funext kv
        by_cases hq : kv.1 = p
        · simp [Function.comp, hq]
        · simp [Function.comp, hq]
      rw [hfun]
      have hsome : (m.find? (fun kv => kv.1 == p)).isSome := by
        rw [List.find?_isSome]
        simpa [List.any_eq_true] using hany
      cases hfind : m.find? (fun kv => kv.1 == p) with
      | none => rw [hfind] at hsome; simp at hsome
      | some kv =>
        have hkvp := List.find?_some hfind
        have hkvp' : kv.1 = p := by simpa using hkvp
        simp [hkvp, hkvp']
    · rw [find?_map_replaceKey m q p e hpq]
      simp [hpq]
  · have hcond : (m.any (fun kv => kv.1 == q)) = false :=
      Bool.eq_false_iff.mpr hany
    simp only [hcond, Bool.false_eq_true, if_false]
    by_cases hpq : p = q
    · subst hpq
      have hnone : m.find? (fun kv => kv.1 == p) = none := by
        rw [List.find?_eq_none]
        intro kv hkv hb
        exact hany (List.any_eq_true.mpr ⟨kv, hkv, hb⟩)
      rw [List.find?_append, hnone]
      simp
    · have h1 : (((q, e)).1 == p) = false := by simp [Ne.symm hpq]
      rw [List.find?_append]
      simp [h1, hpq]

theorem get_entry_eq_none_iff (m : Manifest) (p : String) :
    get_entry m p = none ↔ p ∉ m.map Prod.fst := by
  unfold get_entry
  rw [Option.map_eq_none', List.find?_eq_none]
  constructor
  · intro hfa hmem
    rcases List.mem_map.mp hmem with ⟨kv, hkv, hfst⟩
    exact hfa kv hkv (by simp [hfst])
  · intro hnm kv hkv hb
    exact hnm (List.mem_map.mpr ⟨kv, hkv, by simpa using hb⟩)

theorem mem_of_get_entry (m : Manifest) (p : String) (e : Entry)
    (hg : get_entry m p = some e) : (p, e) ∈ m := by
  unfold get_entry at hg
  cases hfind : m.find? (fun kv => kv.1 == p) with
  | none => rw [hfind] at hg; simp at hg
  | some kv =>
    rw [hfind] at hg
    simp only [Option.map_some'] at hg
    have hkvmem := List.mem_of_find?_eq_some hfind
    have hp : kv.1 = p := by simpa using List.find?_some hfind
    have hkv : kv = (p, e) := by
      cases kv with
      | mk a b =>
        simp only at hp hg
        have hbe : b = e := by simpa using hg
        simp [hp, hbe]
    rwa [hkv] at hkvmem

theorem get_entry_of_mem_nodup (m : Manifest) (p : String) (e : Entry)
    (hnd : (m.map Prod.fst).Nodup) (hmem : (p, e) ∈ m) :
    get_entry m p = some e := by
  induction m with
  | nil => simp at hmem
  | cons kv rest ih =>
    rw [List.map_cons, List.nodup_cons] at hnd
    rcases List.mem_cons.mp hmem with heq | hmem'
    · unfold get_entry
      rw [List.find?_cons_of_pos _ (by simp [← heq])]
      simp [← heq]
    · have hphead : kv.1 ≠ p := by
        intro hkp
        have hpin : p ∈ rest.map Prod.fst := List.mem_map.mpr ⟨(p, e), hmem', rfl⟩
        exact hnd.1 (hkp ▸ hpin)
      unfold get_entry
      rw [List.find?_cons_of_neg _ (by simpa using hphead)]
      exact ih hnd.2 hmem'

theorem keys_add_entry (m : Manifest) (q : String) (e : Entry) :
    (add_entry m q e).map Prod.fst =
      if q ∈ m.map Prod.fst then m.map Prod.fst else m.map Prod.fst ++ [q] := by
  unfold add_entry
  by_cases hany : m.any (fun kv => kv.1 == q)
  · have hq : q ∈ m.map Prod.fst := by
      rcases List.any_eq_true.mp hany with ⟨kv, hkv, hb⟩
      exact List.mem_map.mpr ⟨kv, hkv, by simpa using hb⟩
    simp only [hany, if_true, hq]
    rw [List.map_map]
    have hfun : (Prod.fst ∘ (fun kv : String × Entry =>
        if kv.1 == q then (q, e) else kv)) = Prod.fst := by
      funext kv
      by_cases hkq : kv.1 = q
      · simp [Function.comp, hkq]
      · simp [Function.comp, hkq]
    rw [hfun]
  · have hq : q ∉ m.map Prod.fst := by
      intro hmem
      rcases List.mem_map.mp hmem with ⟨kv, hkv, hfst⟩
      exact hany (List.any_eq_true.mpr ⟨kv, hkv, by simp [hfst]⟩)
    have hcond := Bool.eq_false_iff.mpr hany
    simp [hcond, hq]

theorem nodup_keys_add_entry (m : Manifest) (q : String) (e : Entry)
    (hnd : (m.map Prod.fst).Nodup) : ((add_entry m q e).map Prod.fst).Nodup := by
  rw [keys_add_entry]
  by_cases hq : q ∈ m.map Prod.fst
  · simpa [hq] using hnd
  · rw [if_neg hq]
    rw [List.nodup_append]
    exact ⟨hnd, List.nodup_singleton q, by simpa using hq⟩

theorem lastWrite_append (ws : List (String × String)) (q c : String) (p : String) :
    lastWrite (ws ++ [(q, c)]) p = if p = q then some c else lastWrite ws p := by
  unfold lastWrite
  rw [List.reverse_append]
  by_cases hpq : p = q
  · subst hpq
    rw [show ([(p, c)] : List (String × String)).reverse = [(p, c)] from rfl]
    rw [List.singleton_append, List.find?_cons_of_pos _ (by simp)]
    simp
  · rw [show ([(q, c)] : List (String × String)).reverse = [(q, c)] from rfl]
    rw [List.singleton_append, List.find?_cons_of_neg _ (by simp [Ne.symm hpq])]
    simp [hpq]

theorem lastWrite_isSome_iff (ws : List (String × String)) (p : String) :
    (lastWrite ws p).isSome ↔ p ∈ ws.map Prod.fst := by
  unfold lastWrite
  have hmapsome : ∀ (o : Option (String × String)),
      (o.map (fun w => w.2)).isSome = o.isSome := by
    intro o; cases o <;> rfl
  rw [hmapsome, List.find?_isSome]
  constructor
  · rintro ⟨w, hw, hb⟩
    exact List.mem_map.mpr ⟨w, List.mem_reverse.mp hw, by simpa using hb⟩
  · intro hmem
    rcases List.mem_map.mp hmem with ⟨w, hw, hfst⟩
    exact ⟨w, List.mem_reverse.mpr hw, by simp [hfst]⟩

theorem add_entry_middle (m1 m2 : Manifest) (p : String) (e e' : Entry)
    (h1 : p ∉ m1.map Prod.fst) (h2 : p ∉ m2.map Prod.fst) :
    add_entry (m1 ++ (p, e) :: m2) p e' = m1 ++ (p, e') :: m2 := by
  unfold add_entry
  have hany : (m1 ++ (p, e) :: m2).any (fun kv => kv.1 == p) := by
    rw [List.any_eq_true]
    exact ⟨(p, e), by simp, by simp⟩
  simp only [hany, if_true]
  rw [List.map_append, List.map_cons]
  have hm1 : m1.map (fun kv => if kv.1 == p then (p, e') else kv) = m1 := by
    have : m1.map (fun kv => if kv.1 == p then (p, e') else kv) = m1.map id := by
      apply List.map_congr_left
      intro kv hkv
      have hne : kv.1 ≠ p := fun hh => h1 (List.mem_map.mpr ⟨kv, hkv, hh⟩)
      simp [hne]
    rw [this, List.map_id]
  have hm2 : m2.map (fun kv => if kv.1 == p then (p, e') else kv) = m2 := by
    have : m2.map (fun kv => if kv.1 == p then (p, e') else kv) = m2.map id := by
      apply List.map_congr_left
      intro kv hkv
      have hne : kv.1 ≠ p := fun hh => h2 (List.mem_map.mpr ⟨kv, hkv, hh⟩)
      simp [hne]
    rw [this, List.map_id]
  rw [hm1, hm2]
  simp

/-!
## Concrete fixtures for witnesses and counterexamples
-/

/-- A concrete stand-in for the content hasher in concrete runs
(deterministic and injective on the inputs used). -/
def hashId : String → String := fun s => "#" ++ s

/-- A tracked entry for `knowledge/architecture/x.md` at version 1 whose
stored hash is the hash of content `"A"`. -/
def entryX : Entry :=
  { id := "d1", version := some 1, category := "architecture",
    title := "x.md", content_hash := some "#A" }

/-- A one-entry manifest tracking `knowledge/architecture/x.md`. -/
def manifestX : Manifest := [("knowledge/architecture/x.md", entryX)]

/-- An empty knowledge directory. -/
def fsEmpty : FS := { read := fun _ => .absent, mdFiles := [] }

/-- A remote whose delete succeeds and whose other endpoints fail. -/
def remoteOkDelete : Remote :=
  { get_doc := fun _ => .error ⟨404, "not found"⟩,
    update_doc := fun _ _ _ _ _ => .error ⟨500, "unavailable"⟩,
    delete_doc := fun _ => .ok (),
    create_doc := fun _ _ _ => .error ⟨500, "unavailable"⟩ }

/-!
## C1 — push `--delete` never persists the manifest after a deletion

The claim states that after a successful remote delete, `cmd_push` removes
the entry from the manifest AND saves the manifest to disk immediately, so
that a push whose only successful mutations are deletions leaves an
on-disk manifest without the deleted entries.  The spec's Manifest Store
contract (`save` after every successful mutation, even mid-batch) demands
this, and the update and create branches of `cmd_push` do save
immediately — but the delete branch (cli.py 284–298) calls
`mf.remove_entry` without any `mf.save`, and `cmd_push` has no final
save.  The code therefore contradicts the spec: this is a code bug.
-/

/-- C1: failing input — one tracked entry whose local file is missing,
`--delete` set, remote delete succeeding.  The push reports `1 deleted`
and removes the entry from the in-memory manifest, but the list of
`mf.save` calls is EMPTY: nothing is persisted, so the on-disk manifest
still contains the deleted entry, contradicting the claim (and the spec's
save-after-every-mutation contract). -/
theorem c1_delete_branch_never_saves :
    cmd_push hashId remoteOkDelete (some manifestX) fsEmpty none none true =
      Except.ok { manifest := [], saves := [],
                  trace := [RemoteCall.delete_doc "d1"],
                  created := 0, updated := 0, deletedCount := 1, errors := 0,
                  summary := "Push complete: 1 deleted." } := by
  rfl

/-!
## C2 — version conflict: no update call, entry untouched, batch continues
-/

/-- C2: during push, for a tracked entry whose file exists with content
whose hash differs from the stored hash, if the remote document fetched
just before the update has a version different from the entry's stored
version, then processing that entry adds exactly one `get_doc` call (and
in particular no `update_doc` call) to the trace, leaves the manifest and
saves unchanged, increments the error counter, and continues with the
remaining entries. -/
theorem c2_conflict_no_update (h : String → String) (remote : Remote)
    (categoryFilter : Option String) (deleteFlag : Bool) (message : Option String)
    (fs : FS) (relPath : String) (entry : Entry) (rest : List (String × Entry))
    (st : PushSt) (content : String) (remoteDoc : Doc)
    (hfilter : ∀ cf, categoryFilter = some cf → entry.category = cf)
    (hread : fs.read relPath = .present content)
    (hchanged : entry.content_hash ≠ some (h content))
    (hget : remote.get_doc entry.id = .ok remoteDoc)
    (hconflict : remoteDoc.version ≠ entry.version.getD 0) :
    pushTracked h remote categoryFilter deleteFlag message fs
        ((relPath, entry) :: rest) st =
      pushTracked h remote categoryFilter deleteFlag message fs rest
        { st with trace := st.trace ++ [RemoteCall.get_doc entry.id],
                  errors := st.errors + 1 } := by
  have hskip : filterSkips categoryFilter entry.category = false := by
    cases categoryFilter with
    | none => rfl
    | some cf => simp [filterSkips, hfilter cf rfl]
  simp only [pushTracked, hskip, Bool.false_eq_true, if_false, readLocal, hread,
             hget, if_neg hchanged, if_pos hconflict]

/-- C2 witness: the conflict scenario at a concrete input — stored version
1, remote version 2, local content edited from `"A"` to `"B"`. -/
theorem c2_conflict_no_update_witness :
    pushTracked hashId
        { get_doc := fun _ => .ok ⟨"d1", 2, "x.md", "architecture", "Z"⟩,
          update_doc := fun _ _ _ _ _ => .error ⟨500, "unavailable"⟩,
          delete_doc := fun _ => .error ⟨500, "unavailable"⟩,
          create_doc := fun _ _ _ => .error ⟨500, "unavailable"⟩ }
        none false none
        { read := fun _ => .present "B", mdFiles := [] }
        [("knowledge/architecture/x.md", entryX)]
        { manifest := manifestX, saves := [], trace := [],
          created := 0, updated := 0, deletedCount := 0, errors := 0 } =
      pushTracked hashId
        { get_doc := fun _ => .ok ⟨"d1", 2, "x.md", "architecture", "Z"⟩,
          update_doc := fun _ _ _ _ _ => .error ⟨500, "unavailable"⟩,
          delete_doc := fun _ => .error ⟨500, "unavailable"⟩,
          create_doc := fun _ _ _ => .error ⟨500, "unavailable"⟩ }
        none false none
        { read := fun _ => .present "B", mdFiles := [] }
        []
        { manifest := manifestX, saves := [], trace := [RemoteCall.get_doc "d1"],
          created := 0, updated := 0, deletedCount := 0, errors := 1 } := by
  have := c2_conflict_no_update hashId
    { get_doc := fun _ => .ok ⟨"d1", 2, "x.md", "architecture", "Z"⟩,
      update_doc := fun _ _ _ _ _ => .error ⟨500, "unavailable"⟩,
      delete_doc := fun _ => .error ⟨500, "unavailable"⟩,
      create_doc := fun _ _ _ => .error ⟨500, "unavailable"⟩ }
    none false none
    { read := fun _ => .present "B", mdFiles := [] }
    "knowledge/architecture/x.md" entryX []
    { manifest := manifestX, saves := [], trace := [],
      created := 0, updated := 0, deletedCount := 0, errors := 0 }
    "B" ⟨"d1", 2, "x.md", "architecture", "Z"⟩
    (by intro cf hcf; cases hcf) rfl (by decide) rfl (by decide)
  simpa using this

/-!
## C8 — unreadable tracked file: NOT the same as absent

The claim states that a tracked file that exists but cannot be read is
treated like an absent file (deleted-locally branch, batch continues).
In the source, `_read_local` only returns `None` when `p.exists()` is
false; when the file stats fine but `read_text` raises, the exception is
not caught anywhere in `cmd_push`, so the whole push aborts.  Only a
stat-level absence takes the deleted-locally branch.
-/

/-- A filesystem where the tracked file exists but cannot be read. -/
def fsUnreadableX : FS :=
  { read := fun p => if p = "knowledge/architecture/x.md" then .unreadable
                     else .absent,
    mdFiles := [] }

/-- C8 counterexample: with the tracked file present-but-unreadable and the
delete flag set, `cmd_push` aborts with the uncaught read error instead of
following the deleted-locally branch (it makes no remote call, deletes
nothing, and abandons the batch). -/
theorem c8_unreadable_aborts_counterexample :
    fsUnreadableX.read "knowledge/architecture/x.md" = FileState.unreadable ∧
    cmd_push hashId remoteOkDelete (some manifestX) fsUnreadableX none none true =
      Except.error "read_text failed" := ⟨rfl, rfl⟩

/-- C8 amended: a tracked path whose existence check fails (absent) takes
the deleted-locally branch — with the delete flag, a successful remote
delete removes the entry in memory and the batch continues — while a
tracked file that exists but whose read fails aborts the entire push with
the uncaught read error. -/
theorem c8_amended_absent_vs_unreadable (h : String → String) (remote : Remote)
    (categoryFilter : Option String) (message : Option String) (fs : FS)
    (relPath : String) (entry : Entry) (rest : List (String × Entry)) (st : PushSt)
    (hfilter : ∀ cf, categoryFilter = some cf → entry.category = cf) :
    (fs.read relPath = .absent → remote.delete_doc entry.id = .ok () →
      pushTracked h remote categoryFilter true message fs
          ((relPath, entry) :: rest) st =
        pushTracked h remote categoryFilter true message fs rest
          { st with manifest := remove_entry st.manifest relPath,
                    trace := st.trace ++ [RemoteCall.delete_doc entry.id],
                    deletedCount := st.deletedCount + 1 }) ∧
    (fs.read relPath = .unreadable →
      pushTracked h remote categoryFilter true message fs
          ((relPath, entry) :: rest) st =
        Except.error "read_text failed") := by
  have hskip : filterSkips categoryFilter entry.category = false := by
    cases categoryFilter with
    | none => rfl
    | some cf => simp [filterSkips, hfilter cf rfl]
  constructor
  · intro habs hdel
    simp only [pushTracked, hskip, Bool.false_eq_true, if_false, readLocal,
               habs, hdel, if_true]
  · intro hunread
    simp only [pushTracked, hskip, Bool.false_eq_true, if_false, readLocal,
               hunread]

/-- C8 amended witness: concrete instantiation at the unreadable file. -/
theorem c8_amended_absent_vs_unreadable_witness :
    (fsUnreadableX.read "knowledge/architecture/x.md" = .absent →
      remoteOkDelete.delete_doc entryX.id = .ok () →
      pushTracked hashId remoteOkDelete none true none fsUnreadableX
          [("knowledge/architecture/x.md", entryX)]
          { manifest := manifestX, saves := [], trace := [],
            created := 0, updated := 0, deletedCount := 0, errors := 0 } =
        pushTracked hashId remoteOkDelete none true none fsUnreadableX []
          { manifest := remove_entry manifestX "knowledge/architecture/x.md",
            saves := [], trace := [RemoteCall.delete_doc "d1"],
            created := 0, updated := 0, deletedCount := 1, errors := 0 }) ∧
    (fsUnreadableX.read "knowledge/architecture/x.md" = .unreadable →
      pushTracked hashId remoteOkDelete none true none fsUnreadableX
          [("knowledge/architecture/x.md", entryX)]
          { manifest := manifestX, saves := [], trace := [],
            created := 0, updated := 0, deletedCount := 0, errors := 0 } =
        Except.error "read_text failed") := by
  have := c8_amended_absent_vs_unreadable hashId remoteOkDelete none none
    fsUnreadableX "knowledge/architecture/x.md" entryX []
    { manifest := manifestX, saves := [], trace := [],
      created := 0, updated := 0, deletedCount := 0, errors := 0 }
    (by intro cf hcf; cases hcf)
  simpa using this

/-!
## C9 — category inference for untracked files during push
-/

/-- C9: for an untracked `*.md` file reached in push's untracked-file
phase (not a manifest key, not filtered out), the create call placed in
the trace uses exactly the inferred category, and that inferred category
is the first path segment below the knowledge root when the file is
nested more than one level deep and `"general"` otherwise, with any first
segment outside the fixed category set replaced by `"general"`. -/
theorem c9_untracked_create_category (h : String → String) (remote : Remote)
    (categoryFilter : Option String) (fs : FS) (p content : String)
    (rest : List String) (st : PushSt)
    (huntracked : get_entry st.manifest p = none)
    (hread : fs.read p = .present content)
    (hfilter : categoryFilter = none ∨ categoryFilter = some (inferredCategory p)) :
    (inferredCategory p =
      (if ((p.splitOn "/").drop 1).length > 1 then
        (if ((p.splitOn "/").drop 1).headD "" ∈ VALID_CATEGORIES then
          ((p.splitOn "/").drop 1).headD ""
         else "general")
       else "general")) ∧
    ∃ st', pushUntracked h remote categoryFilter fs (p :: rest) st =
             pushUntracked h remote categoryFilter fs rest st' ∧
           st'.trace = st.trace ++
             [RemoteCall.create_doc (lastComponent p) content (inferredCategory p)] := by
  constructor
  · unfold inferredCategory
    by_cases hlen : ((p.splitOn "/").drop 1).length > 1
    · simp only [hlen, if_true]
    · simp only [hlen, if_false]
      have : ("general" : String) ∈ VALID_CATEGORIES := by decide
      simp [this]
  · have hskip : filterSkips categoryFilter (inferredCategory p) = false := by
      rcases hfilter with hf | hf
      · subst hf; rfl
      · subst hf; simp [filterSkips]
    have hnotsome : (get_entry st.manifest p).isSome = false := by
      rw [huntracked]; rfl
    cases hcreate : remote.create_doc (lastComponent p) content (inferredCategory p) with
    | ok doc =>
      refine ⟨{ st with
          manifest := add_entry st.manifest p
            { id := doc.id, version := some doc.version, category := doc.category,
              title := doc.title, content_hash := some (h content) },
          saves := st.saves ++ [add_entry st.manifest p
            { id := doc.id, version := some doc.version, category := doc.category,
              title := doc.title, content_hash := some (h content) }],
          trace := st.trace ++
            [RemoteCall.create_doc (lastComponent p) content (inferredCategory p)],
          created := st.created + 1 }, ?_, rfl⟩
      simp only [pushUntracked, hnotsome, Bool.false_eq_true, if_false, hskip,
                 hread, hcreate]
    | error err =>
      refine ⟨{ st with
          trace := st.trace ++
            [RemoteCall.create_doc (lastComponent p) content (inferredCategory p)],
          errors := st.errors + 1 }, ?_, rfl⟩
      simp only [pushUntracked, hnotsome, Bool.false_eq_true, if_false, hskip,
                 hread, hcreate]

/-- C9 witness: a top-level file `knowledge/notes.md` is created with
category `"general"` (it is not nested below a category directory). -/
theorem c9_untracked_create_category_witness :
    (inferredCategory "knowledge/notes.md" =
      (if ((("knowledge/notes.md").splitOn "/").drop 1).length > 1 then
        (if ((("knowledge/notes.md").splitOn "/").drop 1).headD "" ∈ VALID_CATEGORIES then
          ((("knowledge/notes.md").splitOn "/").drop 1).headD ""
         else "general")
       else "general")) ∧
    ∃ st', pushUntracked hashId remoteOkDelete none
             { read := fun _ => .present "N", mdFiles := ["knowledge/notes.md"] }
             ["knowledge/notes.md"]
             { manifest := [], saves := [], trace := [],
               created := 0, updated := 0, deletedCount := 0, errors := 0 } =
           pushUntracked hashId remoteOkDelete none
             { read := fun _ => .present "N", mdFiles := ["knowledge/notes.md"] }
             [] st' ∧
           st'.trace = [] ++
             [RemoteCall.create_doc (lastComponent "knowledge/notes.md") "N"
               (inferredCategory "knowledge/notes.md")] :=
  c9_untracked_create_category hashId remoteOkDelete none
    { read := fun _ => .present "N", mdFiles := ["knowledge/notes.md"] }
    "knowledge/notes.md" "N" []
    { manifest := [], saves := [], trace := [],
      created := 0, updated := 0, deletedCount := 0, errors := 0 }
    rfl rfl (Or.inl rfl)

/-!
## C6 — clean tree: push makes no remote calls
-/

theorem mem_insertSorted (x a : String) (l : List String) :
    a ∈ insertSorted x l ↔ a = x ∨ a ∈ l := by
  induction l with
  | nil => simp [insertSorted]
  | cons y ys ih =>
    unfold insertSorted
    by_cases hxy : x ≤ y
    · simp [hxy]
    · simp only [hxy, if_false, List.mem_cons, ih]
      tauto

theorem mem_sortStrings (a : String) (l : List String) :
    a ∈ sortStrings l ↔ a ∈ l := by
  induction l with
  | nil => simp [sortStrings]
  | cons x xs ih =>
    show a ∈ insertSorted x (xs.foldr insertSorted []) ↔ _
    rw [mem_insertSorted]
    show a = x ∨ a ∈ sortStrings xs ↔ _
    simp [ih]

theorem pushTracked_clean (h : String → String) (remote : Remote)
    (categoryFilter : Option String) (deleteFlag : Bool) (message : Option String)
    (fs : FS) (l : List (String × Entry)) (st : PushSt)
    (hclean : ∀ relPath e, (relPath, e) ∈ l →
      ∃ c, fs.read relPath = .present c ∧ e.content_hash = some (h c)) :
    pushTracked h remote categoryFilter deleteFlag message fs l st = .ok st := by
  induction l generalizing st with
  | nil => rfl
  | cons pe rest ih =>
    obtain ⟨relPath, e⟩ := pe
    obtain ⟨c, hread, hhash⟩ := hclean relPath e (List.mem_cons_self _ _)
    by_cases hskip : filterSkips categoryFilter e.category
    · simp only [pushTracked, hskip, if_true]
      exact ih st (fun q e' hq => hclean q e' (List.mem_cons_of_mem _ hq))
    · have hskipf : filterSkips categoryFilter e.category = false :=
        Bool.eq_false_iff.mpr hskip
      simp only [pushTracked, hskipf, Bool.false_eq_true, if_false, readLocal,
                 hread, hhash, if_pos]
      exact ih st (fun q e' hq => hclean q e' (List.mem_cons_of_mem _ hq))

theorem pushUntracked_allTracked (h : String → String) (remote : Remote)
    (categoryFilter : Option String) (fs : FS) (l : List String) (st : PushSt)
    (htracked : ∀ p ∈ l, (get_entry st.manifest p).isSome) :
    pushUntracked h remote categoryFilter fs l st = .ok st := by
  induction l with
  | nil => rfl
  | cons p rest ih =>
    have hp := htracked p (List.mem_cons_self _ _)
    simp only [pushUntracked, hp, if_true]
    exact ih (fun q hq => htracked q (List.mem_cons_of_mem _ hq))

/-- C6: when every tracked entry's file exists with content hashing to the
stored hash, and every local `*.md` file is tracked, `cmd_push` (for any
delete flag, message, and valid-or-absent category filter) makes zero
remote calls — in particular zero create, update, and delete calls —
changes nothing, saves nothing, and reports "Nothing to push". -/
theorem c6_clean_push_no_calls (h : String → String) (remote : Remote)
    (m : Manifest) (fs : FS) (message categoryFilter : Option String)
    (deleteFlag : Bool)
    (hvalid : ∀ cf, categoryFilter = some cf → cf ∈ VALID_CATEGORIES)
    (hclean : ∀ relPath e, (relPath, e) ∈ m →
      ∃ c, fs.read relPath = .present c ∧ e.content_hash = some (h c))
    (htracked : ∀ p ∈ fs.mdFiles, (get_entry m p).isSome) :
    cmd_push h remote (some m) fs message categoryFilter deleteFlag =
      Except.ok { manifest := m, saves := [], trace := [],
                  created := 0, updated := 0, deletedCount := 0, errors := 0,
                  summary := "Nothing to push — no changes detected." } := by
  unfold cmd_push
  have hcond : ∀ (o : Option String),
      (∀ cf, o = some cf → cf ∈ VALID_CATEGORIES) →
      (match o with
       | some cf => (cf ∉ VALID_CATEGORIES : Bool)
       | none => false) = false := by
    intro o ho
    cases o with
    | none => rfl
    | some cf => simp [ho cf rfl]
  rw [hcond categoryFilter hvalid]
  have h1 := pushTracked_clean h remote categoryFilter deleteFlag message fs m
    { manifest := m, saves := [], trace := [],
      created := 0, updated := 0, deletedCount := 0, errors := 0 } hclean
  have h2 := pushUntracked_allTracked h remote categoryFilter fs
    (sortStrings fs.mdFiles)
    { manifest := m, saves := [], trace := [],
      created := 0, updated := 0, deletedCount := 0, errors := 0 }
    (fun p hp => htracked p ((mem_sortStrings p fs.mdFiles).mp hp))
  simp only [Bool.false_eq_true, if_false, h1, h2]
  rfl

/-- C6 witness: a one-entry manifest whose file is untouched since the
last sync and a filesystem listing only that tracked file. -/
theorem c6_clean_push_no_calls_witness :
    cmd_push hashId remoteOkDelete (some manifestX)
        { read := fun p => if p = "knowledge/architecture/x.md" then .present "A"
                           else .absent,
          mdFiles := ["knowledge/architecture/x.md"] }
        none none false =
      Except.ok { manifest := manifestX, saves := [], trace := [],
                  created := 0, updated := 0, deletedCount := 0, errors := 0,
                  summary := "Nothing to push — no changes detected." } := by
  apply c6_clean_push_no_calls
  · intro cf hcf; cases hcf
  · intro relPath e hmem
    simp only [manifestX, List.mem_singleton] at hmem
    have h1 : relPath = "knowledge/architecture/x.md" := congrArg Prod.fst hmem
    have h2 : e = entryX := congrArg Prod.snd hmem
    subst h1; subst h2
    exact ⟨"A", by simp, by decide⟩
  · intro p hp
    simp only [List.mem_singleton] at hp
    subst hp
    rfl

/-!
## C7 — pull: per-entry fetch failures are non-fatal, one save at the end
-/

theorem pullLoop_spec (h : String → String) (remote : Remote) :
    ∀ (todo pre : List (String × Entry)) (st : PullSt),
    (((pre ++ todo).map Prod.fst).Nodup) →
    st.manifest = pre ++ todo →
    pullLoop h remote todo st =
      { manifest := pre ++ todo.map (fun pe =>
          match remote.get_doc pe.2.id with
          | .ok doc => (pe.1, pullEntryUpdate h pe.2 doc)
          | .error _ => pe),
        writes := st.writes ++ todo.filterMap (fun pe =>
          match remote.get_doc pe.2.id with
          | .ok doc => some (pe.1, doc.content)
          | .error _ => none),
        updatedCount := st.updatedCount +
          (todo.filter (fun pe => (remote.get_doc pe.2.id).isOk)).length,
        errors := st.errors +
          (todo.filter (fun pe => !(remote.get_doc pe.2.id).isOk)).length } := by
  intro todo
  induction todo with
  | nil =>
    intro pre st hnd hm
    rw [List.append_nil] at hm
    show st = _
    simp only [List.map_nil, List.append_nil, List.filterMap_nil,
               List.filter_nil, List.length_nil, Nat.add_zero]
    cases st
    simp_all
  | cons pe rest ih =>
    intro pre st hnd hm
    obtain ⟨p, e⟩ := pe
    have hnd' := hnd
    rw [List.map_append, List.map_cons, List.nodup_append] at hnd'
    obtain ⟨hndpre, hndcons, hdisj⟩ := hnd'
    have hppre : p ∉ pre.map Prod.fst := fun hp =>
      (hdisj hp (List.mem_cons_self _ _))
    have hprest : p ∉ rest.map Prod.fst := (List.nodup_cons.mp hndcons).1
    cases hget : remote.get_doc e.id with
    | error err =>
      simp only [pullLoop, hget]
      have hnd2 : (((pre ++ [(p, e)]) ++ rest).map Prod.fst).Nodup := by
        rw [List.append_assoc]
        simpa using hnd
      have hm2 : ({ st with errors := st.errors + 1 } : PullSt).manifest
          = (pre ++ [(p, e)]) ++ rest := by
        simp [hm]
      rw [ih (pre ++ [(p, e)]) { st with errors := st.errors + 1 } hnd2 hm2]
      simp [Except.isOk, Except.toBool, hget, List.filter_cons,
            List.append_assoc, Nat.add_comm, Nat.add_left_comm, Nat.add_assoc]
    | ok doc =>
      simp only [pullLoop, hget]
      have haddmid : add_entry st.manifest p (pullEntryUpdate h e doc)
          = pre ++ (p, pullEntryUpdate h e doc) :: rest := by
        rw [hm]
        exact add_entry_middle pre rest p e (pullEntryUpdate h e doc) hppre hprest
      have hnd2 : (((pre ++ [(p, pullEntryUpdate h e doc)]) ++ rest).map
          Prod.fst).Nodup := by
        rw [List.append_assoc]
        simpa using hnd
      have hm2 : ({ st with
          writes := st.writes ++ [(p, doc.content)],
          manifest := add_entry st.manifest p (pullEntryUpdate h e doc),
          updatedCount := st.updatedCount + 1 } : PullSt).manifest
          = (pre ++ [(p, pullEntryUpdate h e doc)]) ++ rest := by
        simp [haddmid]
      rw [ih (pre ++ [(p, pullEntryUpdate h e doc)]) _ hnd2 hm2]
      simp [Except.isOk, Except.toBool, hget, List.filter_cons,
            List.append_assoc, Nat.add_comm, Nat.add_left_comm, Nat.add_assoc]

/-- C7: on a pull over a non-empty manifest (with unique keys, as Python
dicts guarantee), every entry is processed: a failed fetch leaves its
entry unchanged and adds one to the error count while the rest of the
batch proceeds; a successful fetch records a local-file write of the
fetched content and sets the entry's version, title, category, and
content hash to the fetched state; the updated count is the number of
successful fetches; and the manifest is saved exactly once, at the end,
with the final batch result. -/
theorem c7_pull_nonfatal_single_save (h : String → String) (remote : Remote)
    (m : Manifest) (r : PullResult)
    (hnd : (m.map Prod.fst).Nodup) (hne : m ≠ [])
    (hr : cmd_pull h remote (some m) = .ok r) :
    r.manifest = m.map (fun pe =>
        match remote.get_doc pe.2.id with
        | .ok doc => (pe.1, pullEntryUpdate h pe.2 doc)
        | .error _ => pe) ∧
    r.writes = m.filterMap (fun pe =>
        match remote.get_doc pe.2.id with
        | .ok doc => some (pe.1, doc.content)
        | .error _ => none) ∧
    r.updatedCount = (m.filter (fun pe => (remote.get_doc pe.2.id).isOk)).length ∧
    r.errors = (m.filter (fun pe => !(remote.get_doc pe.2.id).isOk)).length ∧
    r.saves = [r.manifest] := by
  unfold cmd_pull at hr
  have hemp : m.isEmpty = false := by
    cases m with
    | nil => exact absurd rfl hne
    | cons a l => rfl
  simp only [hemp, Bool.false_eq_true, if_false] at hr
  rw [pullLoop_spec h remote m []
    { manifest := m, writes := [], updatedCount := 0, errors := 0 }
    (by simpa using hnd) rfl] at hr
  simp only [List.nil_append, Nat.zero_add] at hr
  have hres := (Except.ok.inj hr).symm
  subst hres
  simp

/-- A second tracked entry, also with a clean stored hash. -/
def entryY : Entry :=
  { id := "d2", version := some 2, category := "stack",
    title := "y.md", content_hash := some "#B" }

/-- A two-entry manifest. -/
def manifestXY : Manifest :=
  [("knowledge/architecture/x.md", entryX), ("knowledge/stack/y.md", entryY)]

/-- A remote where fetching `d1` fails and fetching `d2` succeeds with a
newer document. -/
def remotePullW : Remote :=
  { get_doc := fun i => if i = "d2" then .ok ⟨"d2", 5, "y2.md", "stack", "NEW"⟩
                        else .error ⟨500, "boom"⟩,
    update_doc := fun _ _ _ _ _ => .error ⟨500, "unavailable"⟩,
    delete_doc := fun _ => .error ⟨500, "unavailable"⟩,
    create_doc := fun _ _ _ => .error ⟨500, "unavailable"⟩ }

/-- The observable outcome of pulling `manifestXY` against `remotePullW`. -/
def pullResultW : PullResult :=
  { manifest := [("knowledge/architecture/x.md", entryX),
      ("knowledge/stack/y.md",
        { id := "d2", version := some 5, category := "stack",
          title := "y2.md", content_hash := some "#NEW" })],
    writes := [("knowledge/stack/y.md", "NEW")],
    saves := [[("knowledge/architecture/x.md", entryX),
      ("knowledge/stack/y.md",
        { id := "d2", version := some 5, category := "stack",
          title := "y2.md", content_hash := some "#NEW" })]],
    updatedCount := 1,
    errors := 1 }

/-- C7 witness: one entry's fetch fails, the other succeeds; the batch
completes with one error, one update, and a single final save. -/
theorem c7_pull_nonfatal_single_save_witness :
    pullResultW.manifest = manifestXY.map (fun pe =>
        match remotePullW.get_doc pe.2.id with
        | .ok doc => (pe.1, pullEntryUpdate hashId pe.2 doc)
        | .error _ => pe) ∧
    pullResultW.writes = manifestXY.filterMap (fun pe =>
        match remotePullW.get_doc pe.2.id with
        | .ok doc => some (pe.1, doc.content)
        | .error _ => none) ∧
    pullResultW.updatedCount =
      (manifestXY.filter (fun pe => (remotePullW.get_doc pe.2.id).isOk)).length ∧
    pullResultW.errors =
      (manifestXY.filter (fun pe => !(remotePullW.get_doc pe.2.id).isOk)).length ∧
    pullResultW.saves = [pullResultW.manifest] :=
  c7_pull_nonfatal_single_save hashId remotePullW manifestXY pullResultW
    (by decide) (by decide) (by rfl)

/-!
## C4 — properties of the status sets
-/

theorem mem_unique_of_nodup_keys (m : Manifest) (p : String) (e e' : Entry)
    (hnd : (m.map Prod.fst).Nodup) (h1 : (p, e) ∈ m) (h2 : (p, e') ∈ m) :
    e = e' := by
  have g1 := get_entry_of_mem_nodup m p e hnd h1
  have g2 := get_entry_of_mem_nodup m p e' hnd h2
  rw [g1] at g2
  exact Option.some.inj g2

theorem classifyTracked_mods_spec (h : String → String) (fs : FS) :
    ∀ (l : List (String × Entry)) (mods dels : List String) (p : String),
    classifyTracked h fs l = .ok (mods, dels) → p ∈ mods →
    ∃ e c sh, (p, e) ∈ l ∧ fs.read p = .present c ∧
      e.content_hash = some sh ∧ h c ≠ sh := by
  intro l
  induction l with
  | nil =>
    intro mods dels p hok hp
    simp only [classifyTracked, Except.ok.injEq, Prod.mk.injEq] at hok
    rw [← hok.1] at hp
    simp at hp
  | cons qe rest ih =>
    obtain ⟨q, e⟩ := qe
    intro mods dels p hok hp
    cases hfs : fs.read q with
    | absent =>
      simp only [classifyTracked, readLocal, hfs] at hok
      cases hrec : classifyTracked h fs rest with
      | error msg => simp only [hrec] at hok; cases hok
      | ok md =>
        obtain ⟨mods', dels'⟩ := md
        simp only [hrec, Except.ok.injEq, Prod.mk.injEq] at hok
        rw [← hok.1] at hp
        obtain ⟨e', c', sh, hmem, hrd, hch, hne⟩ := ih mods' dels' p hrec hp
        exact ⟨e', c', sh, List.mem_cons_of_mem _ hmem, hrd, hch, hne⟩
    | unreadable =>
      simp only [classifyTracked, readLocal, hfs] at hok
      cases hok
    | present c =>
      cases hhash : e.content_hash with
      | none =>
        simp only [classifyTracked, readLocal, hfs, hhash] at hok
        obtain ⟨e', c', sh, hmem, hrd, hch, hne⟩ := ih mods dels p hok hp
        exact ⟨e', c', sh, List.mem_cons_of_mem _ hmem, hrd, hch, hne⟩
      | some sh =>
        by_cases hne : h c ≠ sh
        · simp only [classifyTracked, readLocal, hfs, hhash, if_pos hne] at hok
          cases hrec : classifyTracked h fs rest with
          | error msg => simp only [hrec] at hok; cases hok
          | ok md =>
            obtain ⟨mods', dels'⟩ := md
            simp only [hrec, Except.ok.injEq, Prod.mk.injEq] at hok
            rw [← hok.1] at hp
            rcases List.mem_cons.mp hp with hpq | hp'
            · subst hpq
              exact ⟨e, c, sh, List.mem_cons_self _ _, hfs, hhash, hne⟩
            · obtain ⟨e', c', sh', hmem, hrd, hch, hne'⟩ :=
                ih mods' dels' p hrec hp'
              exact ⟨e', c', sh', List.mem_cons_of_mem _ hmem, hrd, hch, hne'⟩
        · simp only [classifyTracked, readLocal, hfs, hhash, if_neg hne] at hok
          obtain ⟨e', c', sh', hmem, hrd, hch, hne'⟩ := ih mods dels p hok hp
          exact ⟨e', c', sh', List.mem_cons_of_mem _ hmem, hrd, hch, hne'⟩

theorem classifyTracked_dels_spec (h : String → String) (fs : FS) :
    ∀ (l : List (String × Entry)) (mods dels : List String) (p : String),
    classifyTracked h fs l = .ok (mods, dels) → p ∈ dels →
    ∃ e, (p, e) ∈ l ∧ fs.read p = .absent := by
  intro l
  induction l with
  | nil =>
    intro mods dels p hok hp
    simp only [classifyTracked, Except.ok.injEq, Prod.mk.injEq] at hok
    rw [← hok.2] at hp
    simp at hp
  | cons qe rest ih =>
    obtain ⟨q, e⟩ := qe
    intro mods dels p hok hp
    cases hfs : fs.read q with
    | absent =>
      simp only [classifyTracked, readLocal, hfs] at hok
      cases hrec : classifyTracked h fs rest with
      | error msg => simp only [hrec] at hok; cases hok
      | ok md =>
        obtain ⟨mods', dels'⟩ := md
        simp only [hrec, Except.ok.injEq, Prod.mk.injEq] at hok
        rw [← hok.2] at hp
        rcases List.mem_cons.mp hp with hpq | hp'
        · subst hpq
          exact ⟨e, List.mem_cons_self _ _, hfs⟩
        · obtain ⟨e', hmem, hrd⟩ := ih mods' dels' p hrec hp'
          exact ⟨e', List.mem_cons_of_mem _ hmem, hrd⟩
    | unreadable =>
      simp only [classifyTracked, readLocal, hfs] at hok
      cases hok
    | present c =>
      cases hhash : e.content_hash with
      | none =>
        simp only [classifyTracked, readLocal, hfs, hhash] at hok
        obtain ⟨e', hmem, hrd⟩ := ih mods dels p hok hp
        exact ⟨e', List.mem_cons_of_mem _ hmem, hrd⟩
      | some sh =>
        by_cases hne : h c ≠ sh
        · simp only [classifyTracked, readLocal, hfs, hhash, if_pos hne] at hok
          cases hrec : classifyTracked h fs rest with
          | error msg => simp only [hrec] at hok; cases hok
          | ok md =>
            obtain ⟨mods', dels'⟩ := md
            simp only [hrec, Except.ok.injEq, Prod.mk.injEq] at hok
            rw [← hok.2] at hp
            obtain ⟨e', hmem, hrd⟩ := ih mods' dels' p hrec hp
            exact ⟨e', List.mem_cons_of_mem _ hmem, hrd⟩
        · simp only [classifyTracked, readLocal, hfs, hhash, if_neg hne] at hok
          obtain ⟨e', hmem, hrd⟩ := ih mods dels p hok hp
          exact ⟨e', List.mem_cons_of_mem _ hmem, hrd⟩

/-- A tracked entry with no stored content hash (legacy manifest data). -/
def entryNoHash : Entry :=
  { id := "d3", version := some 1, category := "architecture",
    title := "z.md", content_hash := none }

/-- C4 counterexample: the claim asserts that every tracked entry lacking
a stored `content_hash` appears in NONE of the three status sets, but an
entry without a stored hash whose local file is absent is classified as
Deleted (the deletion check runs before the hash check, cli.py 205–207),
so it does appear in the Deleted set. -/
theorem c4_no_hash_deleted_counterexample :
    entryNoHash.content_hash = none ∧
    cmd_status hashId (some [("knowledge/architecture/z.md", entryNoHash)])
        fsEmpty =
      Except.ok { newFiles := [], modified := [],
                  deleted := ["knowledge/architecture/z.md"] } := ⟨rfl, rfl⟩

/-- C4 amended: for a manifest with unique keys, the New, Modified, and
Deleted sets computed by status are pairwise disjoint; a tracked entry
whose file exists and whose current hash equals the stored hash appears
in none of them; a tracked entry whose file exists but that lacks a
stored content hash appears in none of them (an absent file, however,
lands in Deleted regardless of the stored hash); and re-running status on
the same inputs yields the same three sets. -/
theorem c4_amended_status_sets (h : String → String) (m : Manifest) (fs : FS)
    (r : StatusResult) (hnd : (m.map Prod.fst).Nodup)
    (hr : reconcile h m fs = .ok r) :
    (∀ p, p ∈ r.newFiles → p ∉ r.modified ∧ p ∉ r.deleted) ∧
    (∀ p, p ∈ r.modified → p ∉ r.deleted) ∧
    (∀ p e c, (p, e) ∈ m → fs.read p = .present c →
      e.content_hash = some (h c) →
      p ∉ r.newFiles ∧ p ∉ r.modified ∧ p ∉ r.deleted) ∧
    (∀ p e c, (p, e) ∈ m → fs.read p = .present c → e.content_hash = none →
      p ∉ r.newFiles ∧ p ∉ r.modified ∧ p ∉ r.deleted) ∧
    (∀ r', reconcile h m fs = .ok r' → r' = r) := by
  unfold reconcile at hr
  cases hcl : classifyTracked h fs m with
  | error msg => simp only [hcl] at hr; cases hr
  | ok md =>
    obtain ⟨mods, dels⟩ := md
    simp only [hcl] at hr
    have hreq := (Except.ok.inj hr).symm
    subst hreq
    have horig : reconcile h m fs =
        .ok { newFiles := fs.mdFiles.filter (fun p => (get_entry m p).isNone),
              modified := mods, deleted := dels } := by
      unfold reconcile
      simp only [hcl]
    refine ⟨?_, ?_, ?_, ?_, ?_⟩
    · intro p hp
      have hcondn := (List.mem_filter.mp hp).2
      have hnone := Option.isNone_iff_eq_none.mp hcondn
      have hnokey := (get_entry_eq_none_iff m p).mp hnone
      constructor
      · intro hmod
        obtain ⟨e', c', sh, hmem, hrdd, hch, hne⟩ :=
          classifyTracked_mods_spec h fs m mods dels p hcl hmod
        exact hnokey (List.mem_map.mpr ⟨(p, e'), hmem, rfl⟩)
      · intro hdel
        obtain ⟨e', hmem, hrdd⟩ :=
          classifyTracked_dels_spec h fs m mods dels p hcl hdel
        exact hnokey (List.mem_map.mpr ⟨(p, e'), hmem, rfl⟩)
    · intro p hmod hdel
      obtain ⟨e', c', sh, hmem, hrdd, hch, hne⟩ :=
        classifyTracked_mods_spec h fs m mods dels p hcl hmod
      obtain ⟨e'', hmem', hrdd'⟩ :=
        classifyTracked_dels_spec h fs m mods dels p hcl hdel
      rw [hrdd] at hrdd'
      cases hrdd'
    · intro p e c hmem hrd hch
      refine ⟨?_, ?_, ?_⟩
      · intro hp
        have hcondn := (List.mem_filter.mp hp).2
        have hnone := Option.isNone_iff_eq_none.mp hcondn
        exact (get_entry_eq_none_iff m p).mp hnone
          (List.mem_map.mpr ⟨(p, e), hmem, rfl⟩)
      · intro hmod
        obtain ⟨e', c', sh, hmem', hrdd, hch', hne⟩ :=
          classifyTracked_mods_spec h fs m mods dels p hcl hmod
        have hee : e = e' := mem_unique_of_nodup_keys m p e e' hnd hmem hmem'
        rw [hrd] at hrdd
        have hcc : c = c' := FileState.present.inj hrdd
        rw [← hee, hch] at hch'
        have hsh : h c = sh := Option.some.inj hch'
        rw [← hcc] at hne
        exact hne hsh
      · intro hdel
        obtain ⟨e', hmem', hrdd⟩ :=
          classifyTracked_dels_spec h fs m mods dels p hcl hdel
        rw [hrd] at hrdd
        cases hrdd
    · intro p e c hmem hrd hch
      refine ⟨?_, ?_, ?_⟩
      · intro hp
        have hcondn := (List.mem_filter.mp hp).2
        have hnone := Option.isNone_iff_eq_none.mp hcondn
        exact (get_entry_eq_none_iff m p).mp hnone
          (List.mem_map.mpr ⟨(p, e), hmem, rfl⟩)
      · intro hmod
        obtain ⟨e', c', sh, hmem', hrdd, hch', hne⟩ :=
          classifyTracked_mods_spec h fs m mods dels p hcl hmod
        have hee : e = e' := mem_unique_of_nodup_keys m p e e' hnd hmem hmem'
        rw [← hee, hch] at hch'
        cases hch'
      · intro hdel
        obtain ⟨e', hmem', hrdd⟩ :=
          classifyTracked_dels_spec h fs m mods dels p hcl hdel
        rw [hrd] at hrdd
        cases hrdd
    · intro r' hr'
      rw [horig] at hr'
      exact (Except.ok.inj hr').symm

/-- The status result for `manifestX` against an empty knowledge tree. -/
def statusResultW : StatusResult :=
  { newFiles := [], modified := [], deleted := ["knowledge/architecture/x.md"] }

/-- C4 amended witness: concrete instantiation at a one-entry manifest
whose file is absent. -/
theorem c4_amended_status_sets_witness :
    (∀ p, p ∈ statusResultW.newFiles →
      p ∉ statusResultW.modified ∧ p ∉ statusResultW.deleted) ∧
    (∀ p, p ∈ statusResultW.modified → p ∉ statusResultW.deleted) ∧
    (∀ p e c, (p, e) ∈ manifestX → fsEmpty.read p = .present c →
      e.content_hash = some (hashId c) →
      p ∉ statusResultW.newFiles ∧ p ∉ statusResultW.modified ∧
        p ∉ statusResultW.deleted) ∧
    (∀ p e c, (p, e) ∈ manifestX → fsEmpty.read p = .present c →
      e.content_hash = none →
      p ∉ statusResultW.newFiles ∧ p ∉ statusResultW.modified ∧
        p ∉ statusResultW.deleted) ∧
    (∀ r', reconcile hashId manifestX fsEmpty = .ok r' → r' = statusResultW) :=
  c4_amended_status_sets hashId manifestX fsEmpty statusResultW
    (by decide) (by rfl)

/-!
## C3 — push's changed check vs status's modified check

The claim asserts the two agree on every tracked path whose file exists,
including entries lacking a stored `content_hash`.  They do not: status
skips a hash-less entry (cli.py 216–224), while push's check
`stored_hash == current_hash` is false for `stored_hash = None`
(cli.py 301–304), so push treats the entry as changed, fetches the remote
document, and attempts an update.
-/

/-- A tracked entry with no stored hash for `knowledge/architecture/x.md`. -/
def entryNoHashA : Entry :=
  { id := "d1", version := some 1, category := "architecture",
    title := "x.md", content_hash := none }

/-- A one-entry manifest with a hash-less entry. -/
def mNoHash : Manifest := [("knowledge/architecture/x.md", entryNoHashA)]

/-- A filesystem where every path reads as content `"A"` and no `*.md`
files are listed. -/
def fsA : FS := { read := fun _ => .present "A", mdFiles := [] }

/-- A remote whose fetch returns version 1 (matching the entry) and whose
update succeeds, bumping to version 2. -/
def remoteC3 : Remote :=
  { get_doc := fun _ => .ok ⟨"d1", 1, "x.md", "architecture", "OLD"⟩,
    update_doc := fun i t c cat _ => .ok ⟨i, 2, t, cat, c⟩,
    delete_doc := fun _ => .error ⟨500, "unavailable"⟩,
    create_doc := fun _ _ _ => .error ⟨500, "unavailable"⟩ }

/-- C3 counterexample: on the same inputs — a tracked entry lacking a
stored `content_hash` whose file exists — status reports it in NO set
(not modified), while push treats it as changed: it fetches the remote
document and calls update.  The two classifications disagree, refuting
the claimed equivalence. -/
theorem c3_push_status_disagree_counterexample :
    entryNoHashA.content_hash = none ∧
    cmd_status hashId (some mNoHash) fsA =
      Except.ok { newFiles := [], modified := [], deleted := [] } ∧
    cmd_push hashId remoteC3 (some mNoHash) fsA none none false =
      Except.ok
        { manifest := [("knowledge/architecture/x.md",
            { id := "d1", version := some 2, category := "architecture",
              title := "x.md", content_hash := some "#A" })],
          saves := [[("knowledge/architecture/x.md",
            { id := "d1", version := some 2, category := "architecture",
              title := "x.md", content_hash := some "#A" })]],
          trace := [RemoteCall.get_doc "d1",
            RemoteCall.update_doc "d1" "x.md" "A" "architecture" none],
          created := 0, updated := 1, deletedCount := 0, errors := 0,
          summary := "Push complete: 1 updated." } := ⟨rfl, rfl, rfl⟩

theorem push_assemble (h : String → String) (remote : Remote) (m : Manifest)
    (fs : FS) (message : Option String) (deleteFlag : Bool) (st1 st2 : PushSt)
    (h1 : pushTracked h remote none deleteFlag message fs m
      { manifest := m, saves := [], trace := [], created := 0, updated := 0,
        deletedCount := 0, errors := 0 } = .ok st1)
    (h2 : pushUntracked h remote none fs (sortStrings fs.mdFiles) st1 = .ok st2) :
    cmd_push h remote (some m) fs message none deleteFlag =
      .ok { manifest := st2.manifest, saves := st2.saves, trace := st2.trace,
            created := st2.created, updated := st2.updated,
            deletedCount := st2.deletedCount, errors := st2.errors,
            summary := pushSummary st2 } := by
  unfold cmd_push
  simp only [h1, h2, Bool.false_eq_true, if_false]

theorem status_singleton (h : String → String) (fs : FS) (p c : String)
    (e : Entry) (hread : fs.read p = .present c) (hmd : fs.mdFiles = []) :
    cmd_status h (some [(p, e)]) fs =
      .ok { newFiles := [],
            modified := match e.content_hash with
              | some sh => if h c ≠ sh then [p] else []
              | none => [],
            deleted := [] } := by
  unfold cmd_status reconcile
  cases hch : e.content_hash with
  | none =>
    simp only [classifyTracked, readLocal, hread, hch, hmd, List.filter_nil]
  | some sh =>
    by_cases hne : h c ≠ sh
    · simp only [classifyTracked, readLocal, hread, hch, if_pos hne, hmd,
                 List.filter_nil]
    · simp only [classifyTracked, readLocal, hread, hch, if_neg hne, hmd,
                 List.filter_nil]

/-- C3 amended: for a tracked entry whose file exists, push and status
agree exactly when the entry HAS a stored content hash: push fetches the
remote document (treating the entry as changed) if and only if status
reports the path as modified.  For an entry lacking a stored hash the two
diverge by design: push treats it as changed and fetches, while status
never reports it as modified. -/
theorem c3_amended_push_vs_status (h : String → String) (remote : Remote)
    (fs : FS) (p c : String) (e : Entry)
    (hread : fs.read p = .present c) (hmd : fs.mdFiles = []) :
    ∃ r s, cmd_push h remote (some [(p, e)]) fs none none false = .ok r ∧
      cmd_status h (some [(p, e)]) fs = .ok s ∧
      (∀ sh, e.content_hash = some sh →
        ((RemoteCall.get_doc e.id ∈ r.trace) ↔ p ∈ s.modified)) ∧
      (e.content_hash = none →
        (RemoteCall.get_doc e.id ∈ r.trace) ∧ p ∉ s.modified) := by
  have hsort : sortStrings fs.mdFiles = [] := by rw [hmd]; rfl
  have hstatus := status_singleton h fs p c e hread hmd
  by_cases hch : e.content_hash = some (h c)
  · have h1 : pushTracked h remote none false none fs [(p, e)]
        { manifest := [(p, e)], saves := [], trace := [], created := 0,
          updated := 0, deletedCount := 0, errors := 0 } =
        Except.ok
          { manifest := [(p, e)], saves := [], trace := [], created := 0,
            updated := 0, deletedCount := 0, errors := 0 } := by
      simp [pushTracked, filterSkips, readLocal, hread, hch]
    have h2 : pushUntracked h remote none fs (sortStrings fs.mdFiles)
        { manifest := [(p, e)], saves := [], trace := [], created := 0,
          updated := 0, deletedCount := 0, errors := 0 } =
        Except.ok
          { manifest := [(p, e)], saves := [], trace := [], created := 0,
            updated := 0, deletedCount := 0, errors := 0 } := by
      rw [hsort]; rfl
    refine ⟨_, _, push_assemble h remote [(p, e)] fs none false _ _ h1 h2,
      hstatus, ?_, ?_⟩
    · intro sh hsh
      have hshc : sh = h c := by
        rw [hsh] at hch
        exact Option.some.inj hch
      subst hshc
      simp [hsh]
    · intro hnone
      rw [hnone] at hch
      cases hch
  · have hiff : ∀ (st1 : PushSt),
        RemoteCall.get_doc e.id ∈ st1.trace →
        pushTracked h remote none false none fs [(p, e)]
          { manifest := [(p, e)], saves := [], trace := [], created := 0,
            updated := 0, deletedCount := 0, errors := 0 } = .ok st1 →
        ∃ r s, cmd_push h remote (some [(p, e)]) fs none none false = .ok r ∧
          cmd_status h (some [(p, e)]) fs = .ok s ∧
          (∀ sh, e.content_hash = some sh →
            ((RemoteCall.get_doc e.id ∈ r.trace) ↔ p ∈ s.modified)) ∧
          (e.content_hash = none →
            (RemoteCall.get_doc e.id ∈ r.trace) ∧ p ∉ s.modified) := by
      intro st1 htr h1
      have h2 : pushUntracked h remote none fs (sortStrings fs.mdFiles) st1 =
          .ok st1 := by
        rw [hsort]; rfl
      refine ⟨_, _, push_assemble h remote [(p, e)] fs none false _ _ h1 h2,
        hstatus, ?_, ?_⟩
      · intro sh hsh
        have hne : h c ≠ sh := by
          intro hce
          rw [hsh, hce] at hch
          exact hch rfl
        simp [hsh, if_pos hne, htr]
      · intro hnone
        simp [hnone, htr]
    cases hget : remote.get_doc e.id with
    | error err =>
      apply hiff
        { manifest := [(p, e)], saves := [],
          trace := [] ++ [RemoteCall.get_doc e.id], created := 0,
          updated := 0, deletedCount := 0, errors := 0 + 1 }
      · simp
      · simp [pushTracked, filterSkips, readLocal, hread, hch, hget]
    | ok rdoc =>
      by_cases hver : rdoc.version ≠ e.version.getD 0
      · apply hiff
          { manifest := [(p, e)], saves := [],
            trace := [] ++ [RemoteCall.get_doc e.id], created := 0,
            updated := 0, deletedCount := 0, errors := 0 + 1 }
        · simp
        · simp [pushTracked, filterSkips, readLocal, hread, hch, hget,
                if_pos hver]
      · cases hupd : remote.update_doc e.id e.title c e.category none with
        | ok doc =>
          apply hiff
            { manifest := add_entry [(p, e)] p
                { e with version := some doc.version,
                         content_hash := some (h c) },
              saves := [] ++ [add_entry [(p, e)] p
                { e with version := some doc.version,
                         content_hash := some (h c) }],
              trace := [] ++ [RemoteCall.get_doc e.id,
                RemoteCall.update_doc e.id e.title c e.category none],
              created := 0, updated := 0 + 1, deletedCount := 0, errors := 0 }
          · simp
          · simp [pushTracked, filterSkips, readLocal, hread, hch, hget,
                  if_neg hver, hupd]
        | error err =>
          apply hiff
            { manifest := [(p, e)], saves := [],
              trace := [] ++ [RemoteCall.get_doc e.id,
                RemoteCall.update_doc e.id e.title c e.category none],
              created := 0, updated := 0, deletedCount := 0,
              errors := 0 + 1 }
          · simp
          · simp [pushTracked, filterSkips, readLocal, hread, hch, hget,
                  if_neg hver, hupd]

/-- C3 amended witness: a concrete entry WITH a stored hash differing from
the current content hash — push fetches and status reports modified. -/
theorem c3_amended_push_vs_status_witness :
    ∃ r s, cmd_push hashId remoteC3
        (some [("knowledge/architecture/x.md", entryX)])
        { read := fun _ => .present "B", mdFiles := [] } none none false =
          .ok r ∧
      cmd_status hashId (some [("knowledge/architecture/x.md", entryX)])
        { read := fun _ => .present "B", mdFiles := [] } = .ok s ∧
      (∀ sh, entryX.content_hash = some sh →
        ((RemoteCall.get_doc entryX.id ∈ r.trace) ↔
          "knowledge/architecture/x.md" ∈ s.modified)) ∧
      (entryX.content_hash = none →
        (RemoteCall.get_doc entryX.id ∈ r.trace) ∧
          "knowledge/architecture/x.md" ∉ s.modified) :=
  c3_amended_push_vs_status hashId remoteC3
    { read := fun _ => .present "B", mdFiles := [] }
    "knowledge/architecture/x.md" "B" entryX rfl rfl

/-!
## C5 — clone then status
-/

theorem classifyTracked_all_clean (h : String → String) (fs : FS)
    (l : List (String × Entry))
    (hclean : ∀ p e, (p, e) ∈ l →
      ∃ c, fs.read p = .present c ∧ e.content_hash = some (h c)) :
    classifyTracked h fs l = .ok ([], []) := by
  induction l with
  | nil => rfl
  | cons pe rest ih =>
    obtain ⟨p, e⟩ := pe
    obtain ⟨c, hread, hch⟩ := hclean p e (List.mem_cons_self _ _)
    simp only [classifyTracked, readLocal, hread, hch,
               if_neg (by simp : ¬(h c ≠ h c))]
    exact ih (fun q e' hq => hclean q e' (List.mem_cons_of_mem _ hq))

theorem cloneLoop_invariant (h : String → String) :
    ∀ (docs : List Doc) (m : Manifest) (ws : List (String × String)) (n : Nat)
    (m' : Manifest) (ws' : List (String × String)) (n' : Nat),
    cloneLoop h docs m ws n = (m', ws', n') →
    (m.map Prod.fst).Nodup →
    (∀ p, get_entry m p = none ↔ lastWrite ws p = none) →
    (∀ p e, get_entry m p = some e →
      ∃ c, lastWrite ws p = some c ∧ e.content_hash = some (h c)) →
    ((m'.map Prod.fst).Nodup ∧
     (∀ p, get_entry m' p = none ↔ lastWrite ws' p = none) ∧
     (∀ p e, get_entry m' p = some e →
       ∃ c, lastWrite ws' p = some c ∧ e.content_hash = some (h c))) := by
  intro docs
  induction docs with
  | nil =>
    intro m ws n m' ws' n' heq hnd hiff hhash
    simp only [cloneLoop, Prod.mk.injEq] at heq
    obtain ⟨h1, h2, h3⟩ := heq
    subst h1; subst h2
    exact ⟨hnd, hiff, hhash⟩
  | cons d rest ih =>
    intro m ws n m' ws' n' heq hnd hiff hhash
    simp only [cloneLoop] at heq
    apply ih (add_entry m (local_path d.category d.title) (cloneEntry h d))
      (ws ++ [(local_path d.category d.title, d.content)]) (n + 1) m' ws' n' heq
    · exact nodup_keys_add_entry m _ _ hnd
    · intro p
      rw [get_entry_add_entry, lastWrite_append]
      by_cases hp : p = local_path d.category d.title
      · simp [hp]
      · simp only [hp, if_false]
        exact hiff p
    · intro p e hget
      rw [get_entry_add_entry] at hget
      rw [lastWrite_append]
      by_cases hp : p = local_path d.category d.title
      · rw [if_pos hp] at hget
        have he : e = cloneEntry h d := Option.some.inj hget.symm
        refine ⟨d.content, by rw [if_pos hp], ?_⟩
        rw [he]
        rfl
      · rw [if_neg hp] at hget
        rw [if_neg hp]
        exact hhash p e hget

/-- C5 counterexample: for the EMPTY document list, clone writes no
manifest file (cli.py 110–112 returns before `mf.save`), so the
subsequent status run fails its not-initialized precondition and exits
with an error instead of reporting zero new, modified, and deleted
files. -/
theorem c5_empty_clone_counterexample :
    cmd_clone hashId false [] =
      Except.ok { disk := none, writes := [], written := 0 } ∧
    cmd_status hashId none (fsOfWrites []) =
      Except.error "No manifest found. Run `mdlm clone` first." := ⟨rfl, rfl⟩

/-- C5 amended: for every NON-EMPTY document list returned by the Remote
Store, running clone into a fresh directory and then immediately running
status with no intervening local edits reports zero new, zero modified,
and zero deleted files. -/
theorem c5_amended_clone_then_status (h : String → String) (docs : List Doc)
    (hne : docs ≠ []) (r : CloneResult)
    (hc : cmd_clone h false docs = .ok r) :
    cmd_status h r.disk (fsOfWrites r.writes) =
      Except.ok { newFiles := [], modified := [], deleted := [] } := by
  unfold cmd_clone at hc
  have hemp : docs.isEmpty = false := by
    cases docs with
    | nil => exact absurd rfl hne
    | cons a l => rfl
  rcases hcl : cloneLoop h docs [] [] 0 with ⟨m', ws', n'⟩
  simp only [Bool.false_eq_true, if_false, hemp, hcl] at hc
  have hres := (Except.ok.inj hc).symm
  subst hres
  obtain ⟨hnd, hiff, hhash⟩ := cloneLoop_invariant h docs [] [] 0 m' ws' n' hcl
    (by simp) (by intro p; simp [get_entry, lastWrite])
    (by intro p e hget; simp [get_entry] at hget)
  unfold cmd_status reconcile
  dsimp only
  rw [classifyTracked_all_clean h (fsOfWrites ws') m' ?hcln]
  case hcln =>
    intro p e hmem
    have hget := get_entry_of_mem_nodup m' p e hnd hmem
    obtain ⟨c, hlw, hch⟩ := hhash p e hget
    refine ⟨c, ?_, hch⟩
    show (match lastWrite ws' p with
      | some c => FileState.present c
      | none => FileState.absent) = FileState.present c
    rw [hlw]
  have hfilter : (fsOfWrites ws').mdFiles.filter
      (fun p => (get_entry m' p).isNone) = [] := by
    rw [List.filter_eq_nil_iff]
    intro p hp
    have hmem : p ∈ ws'.map Prod.fst := by
      have h1 := (List.mem_filter.mp hp).1
      exact List.mem_dedup.mp h1
    have hlw : lastWrite ws' p ≠ none := by
      intro hnone
      have := (lastWrite_isSome_iff ws' p).mpr hmem
      rw [hnone] at this
      cases this
    have hge : get_entry m' p ≠ none := fun hn => hlw ((hiff p).mp hn)
    simp [Option.isNone_iff_eq_none, hge]
  rw [hfilter]

/-- The clone result for the single document
`{id d1, version 1, category architecture, title layering.md, content A}`. -/
def cloneResultW : CloneResult :=
  { disk := some [("knowledge/architecture/layering.md",
      { id := "d1", version := some 1, category := "architecture",
        title := "layering.md", content_hash := some "#A" })],
    writes := [("knowledge/architecture/layering.md", "A")],
    written := 1 }

/-- C5 amended witness: cloning one document and running status reports
zero new, modified, and deleted files. -/
theorem c5_amended_clone_then_status_witness :
    cmd_status hashId cloneResultW.disk (fsOfWrites cloneResultW.writes) =
      Except.ok { newFiles := [], modified := [], deleted := [] } :=
  c5_amended_clone_then_status hashId
    [⟨"d1", 1, "layering.md", "architecture", "A"⟩] (by decide) cloneResultW
    (by rfl)

/-!
## C10 — clone path collision: later document wins silently
-/

/-- C10: when clone receives two documents whose sanitized category/title
pair maps to the same local path, the file at that path is last written
with the SECOND document's content, the manifest records only the second
document's id/version/hash at that path, the first document's id appears
nowhere in the manifest, and clone still reports both documents as
written with no error (the result is `Except.ok`). -/
theorem c10_clone_collision_later_wins (h : String → String) (d1 d2 : Doc)
    (hsame : local_path d1.category d1.title = local_path d2.category d2.title)
    (hne : d1.id ≠ d2.id) :
    cmd_clone h false [d1, d2] =
      Except.ok
        { disk := some [(local_path d2.category d2.title, cloneEntry h d2)],
          writes := [(local_path d1.category d1.title, d1.content),
                     (local_path d2.category d2.title, d2.content)],
          written := 2 } ∧
    lastWrite [(local_path d1.category d1.title, d1.content),
               (local_path d2.category d2.title, d2.content)]
        (local_path d2.category d2.title) = some d2.content ∧
    (∀ q e, (q, e) ∈ [(local_path d2.category d2.title, cloneEntry h d2)] →
      e.id ≠ d1.id) := by
  refine ⟨?_, ?_, ?_⟩
  · unfold cmd_clone
    simp only [Bool.false_eq_true, if_false, List.isEmpty_cons, cloneLoop]
    rw [hsame]
    simp [add_entry]
  · unfold lastWrite
    simp
  · intro q e hq
    simp only [List.mem_singleton, Prod.mk.injEq] at hq
    rw [hq.2]
    exact fun hid => hne hid.symm

/-- C10 witness: two concrete documents with distinct ids whose
category/title sanitize to the same local path. -/
theorem c10_clone_collision_later_wins_witness :
    cmd_clone hashId false
        [⟨"d1", 1, "layering.md", "architecture", "A"⟩,
         ⟨"d2", 7, "layering.md", "architecture", "B"⟩] =
      Except.ok
        { disk := some [(local_path "architecture" "layering.md",
            cloneEntry hashId ⟨"d2", 7, "layering.md", "architecture", "B"⟩)],
          writes := [(local_path "architecture" "layering.md", "A"),
                     (local_path "architecture" "layering.md", "B")],
          written := 2 } ∧
    lastWrite [(local_path "architecture" "layering.md", "A"),
               (local_path "architecture" "layering.md", "B")]
        (local_path "architecture" "layering.md") = some "B" ∧
    (∀ q e, (q, e) ∈ [(local_path "architecture" "layering.md",
        cloneEntry hashId ⟨"d2", 7, "layering.md", "architecture", "B"⟩)] →
      e.id ≠ "d1") :=
  c10_clone_collision_later_wins hashId
    ⟨"d1", 1, "layering.md", "architecture", "A"⟩
    ⟨"d2", 7, "layering.md", "architecture", "B"⟩ rfl (by decide)
